import Mathlib

/-!
Shallow embedding of the event-handling core of `src/main.py`
(`StreamlitWebSocketHandler`): the session-state holder, the event reducer
`on_message`, the log helper `_log_message`, and the top-n emotion
extraction `_extract_top_n_emotions`.

Modelling conventions:
* Emotion scores are rationals (`ℚ`); Python dicts are association lists
  with distinct keys, in insertion order.
* Wall-clock time is a natural number of seconds passed to the reducer as
  an explicit argument (`datetime.datetime.now` reads the clock at the
  point of the call); `strftime "%H:%M:%S"` is `fmtHMS`.
* Python's `sorted(..., key=lambda item: item[1], reverse=True)` is a
  stable sort, descending on the score component: embedded as the stable
  insertion sort `sortD`.
* The dict comprehension `{emotion: score for ...}` is `dictOfPairs`
  (Python dict build: later duplicate key overwrites in place, new key
  appends).
* `base64.b64decode` can raise `binascii.Error`; it is the one operation
  in the `try` body of `on_message` that can raise in this typed model,
  so the body is an `Except String` computation and `on_message` wraps it
  with the `except` clause of lines 83-85.
-/

/-- One entry of `self.logs` (built by `_log_message`, lines 95-104). -/
structure LogEntry where
  timestamp : String
  message : String
  type : String
deriving DecidableEq

/-- `self.chat_metadata` once set (lines 44-47). -/
structure ChatMetadata where
  chat_id : String
  chat_group_id : String
deriving DecidableEq

/-- One entry of `self.messages` (the `msg_content` dict, lines 52-57). -/
structure Message where
  role : String
  content : String
  timestamp : Nat
  emotions : Option (List (String × ℚ))
deriving DecidableEq

/-- The mutable state of `StreamlitWebSocketHandler` (lines 29-35; `logs`
is created lazily by `_log_message` but behaves as an initially empty
list). `chat_metadata` starts as the empty dict, modelled as `none`. -/
structure HandlerState where
  byte_strs : List (List Nat)
  messages : List Message
  emotion_scores : List (String × ℚ)
  chat_metadata : Option ChatMetadata
  is_connected : Bool
  error_message : Option String
  logs : List LogEntry
deriving DecidableEq

/-- `__init__` (lines 29-35). -/
def initialState : HandlerState where
  byte_strs := []
  messages := []
  emotion_scores := []
  chat_metadata := none
  is_connected := false
  error_message := none
  logs := []

/-- Two-digit zero padding, as in `%H`/`%M`/`%S`. -/
def pad2 (n : Nat) : String :=
  if n < 10 then "0" ++ toString n else toString n

/-- `datetime.now(utc).strftime("%H:%M:%S")` for a clock reading of `now`
seconds. -/
def fmtHMS (now : Nat) : String :=
  pad2 (now / 3600 % 24) ++ ":" ++ pad2 (now % 3600 / 60) ++ ":" ++ pad2 (now % 60)

/-- `_log_message` (lines 95-104): append one log entry. -/
def logMessage (s : HandlerState) (text msgType : String) (now : Nat) : HandlerState :=
  { s with logs := s.logs ++ [⟨fmtHMS now, text, msgType⟩] }

/-- Stable descending insertion of one `(emotion, score)` pair: the new
pair goes before the first pair of strictly smaller score, after pairs of
greater-or-equal score that are already in place from earlier input
positions. -/
def insertD (x : String × ℚ) : List (String × ℚ) → List (String × ℚ)
  | [] => [x]
  | y :: ys => if x.2 ≥ y.2 then x :: y :: ys else y :: insertD x ys

/-- `sorted(emotion_scores.items(), key=lambda item: item[1], reverse=True)`
(line 107): a stable sort, descending by score. -/
def sortD : List (String × ℚ) → List (String × ℚ)
  | [] => []
  | x :: xs => insertD x (sortD xs)

/-- Python dict assignment `d[k] = v`: overwrite in place if the key is
present, else append. -/
def dictInsert (d : List (String × ℚ)) (k : String) (v : ℚ) : List (String × ℚ) :=
  if d.any (fun p => p.1 = k) then d.map (fun p => if p.1 = k then (k, v) else p)
  else d ++ [(k, v)]

/-- The dict comprehension of line 108, building a dict from a pair list. -/
def dictOfPairs (l : List (String × ℚ)) : List (String × ℚ) :=
  l.foldl (fun d p => dictInsert d p.1 p.2) []

/-- `_extract_top_n_emotions` (lines 106-108). -/
def extract_top_n_emotions (emotion_scores : List (String × ℚ)) (n : Nat) :
    List (String × ℚ) :=
  dictOfPairs ((sortD emotion_scores).take n)

/-- Whether a character is in the base64 alphabet. -/
def isB64Char (c : Char) : Bool :=
  ('A' ≤ c && c ≤ 'Z') || ('a' ≤ c && c ≤ 'z') || ('0' ≤ c && c ≤ '9')
    || c = '+' || c = '/'

/-- Six-bit value of a base64 alphabet character. -/
def b64Value (c : Char) : Nat :=
  if 'A' ≤ c && c ≤ 'Z' then c.toNat - 65
  else if 'a' ≤ c && c ≤ 'z' then c.toNat - 71
  else if '0' ≤ c && c ≤ '9' then c.toNat + 4
  else if c = '+' then 62
  else 63

/-- Pack a list of six-bit values into eight-bit bytes, dropping a
trailing partial byte. -/
def packSextets : List Nat → List Nat
  | a :: b :: c :: d :: rest =>
      (a * 4 + b / 16) :: (b % 16 * 16 + c / 4) :: (c % 4 * 64 + d) :: packSextets rest
  | [a, b] => [a * 4 + b / 16]
  | [a, b, c] => [a * 4 + b / 16, b % 16 * 16 + c / 4]
  | _ => []

/-- `base64.b64decode(data)` (line 71): non-alphabet characters are
discarded, the remaining length must be a multiple of four, padding ends
the data, and a lone trailing data character is invalid; on failure it
raises `binascii.Error` (error messages abridged). -/
def b64decode (data : String) : Except String (List Nat) :=
  let cs := data.toList.filter (fun c => isB64Char c || c = '=')
  if cs.length % 4 ≠ 0 then
    .error "Incorrect padding"
  else
    let body := cs.takeWhile (fun c => c ≠ '=')
    if body.length % 4 = 1 then
      .error "Invalid base64-encoded string"
    else
      .ok (packSextets (body.map b64Value))

/-- The inbound `SubscribeEvent`s dispatched on by `on_message`
(lines 43-81), with the payload fields each branch reads. For
user/assistant message events the role and content come from the nested
`message.message` payload and `prosody` is `message.models.prosody.scores`
when present. -/
inductive SubscribeEvent where
  | chat_metadata (chat_id chat_group_id : String)
  | user_message (role content : String) (prosody : Option (List (String × ℚ)))
  | assistant_message (role content : String) (prosody : Option (List (String × ℚ)))
  | audio_output (data : String)
  | error (code message : String)
  | other (type : String)
deriving DecidableEq

/-- The shared body of the `user_message`/`assistant_message` branch
(lines 51-67). -/
def handleChatMessage (role content : String)
    (prosody : Option (List (String × ℚ))) (now : Nat) (s : HandlerState) :
    HandlerState :=
  match prosody with
  | none => { s with messages := s.messages ++ [⟨role, content, now, none⟩] }
  | some scores =>
      let emotions := extract_top_n_emotions scores 5
      { s with
        messages := s.messages ++ [⟨role, content, now, some emotions⟩]
        emotion_scores := emotions }

/-- The `try` body of `on_message` (lines 43-81). Only the audio branch
can raise (base64 decode happens before the byte-stream put, so a failing
branch leaves the state untouched). -/
def onMessageBody (message : SubscribeEvent) (now : Nat) (s : HandlerState) :
    Except String HandlerState :=
  match message with
  | .chat_metadata cid gid =>
      .ok (logMessage { s with chat_metadata := some ⟨cid, gid⟩ }
        ("Chat ID: " ++ cid) "metadata" now)
  | .user_message role content prosody =>
      .ok (handleChatMessage role content prosody now s)
  | .assistant_message role content prosody =>
      .ok (handleChatMessage role content prosody now s)
  | .audio_output data =>
      match b64decode data with
      | .ok bytes => .ok { s with byte_strs := s.byte_strs ++ [bytes] }
      | .error e => .error e
  | .error code msg =>
      let em := "Hume API Error (" ++ code ++ "): " ++ msg
      .ok (logMessage { s with error_message := some em } em "error" now)
  | .other t =>
      .ok (logMessage s ("Received " ++ t ++ " event") "system" now)

/-- `on_message` (lines 41-85): the `try` body wrapped by the `except`
clause that stringifies the exception, stores it as `error_message`, and
appends an error log entry. -/
def onMessage (message : SubscribeEvent) (now : Nat) (s : HandlerState) :
    HandlerState :=
  match onMessageBody message now s with
  | .ok s' => s'
  | .error e =>
      let em := "Handler error: " ++ e
      logMessage { s with error_message := some em } em "error" now

/-- Fold the reducer over a sequence of timestamped inbound events. -/
def processEvents (evs : List (SubscribeEvent × Nat)) (s : HandlerState) :
    HandlerState :=
  evs.foldl (fun st e => onMessage e.1 e.2 st) s

/-- The events taken by the user/assistant message branch. -/
def isChatMessageEvent : SubscribeEvent → Bool
  | .user_message _ _ _ => true
  | .assistant_message _ _ _ => true
  | _ => false

/-- Score-equality test used to talk about ties. -/
def scoreEq (v : ℚ) (p : String × ℚ) : Bool :=
  p.2 = v

/-- The prosody mapping of the worked example in the spec. -/
def c3Input : List (String × ℚ) :=
  [("joy", 0.9), ("calm", 0.2), ("fear", 0.1), ("anger", 0.05),
   ("sad", 0.3), ("awe", 0.4)]

/-- The distribution the spec's worked example expects, as listed there. -/
def c3Expected : List (String × ℚ) :=
  [("joy", 0.9), ("sad", 0.3), ("awe", 0.4), ("calm", 0.2), ("fear", 0.1)]

/-! ### Helper lemmas about the stable descending sort -/

lemma insertD_perm (x : String × ℚ) (m : List (String × ℚ)) :
    (insertD x m).Perm (x :: m) := by
  induction m with
  | nil => simp [insertD]
  | cons y ys ih =>
    by_cases h : x.2 ≥ y.2
    · simp [insertD, h]
    · simp only [insertD, if_neg h]
      exact (ih.cons y).trans (List.Perm.swap x y ys)

lemma sortD_perm (l : List (String × ℚ)) : (sortD l).Perm l := by
  induction l with
  | nil => simp [sortD]
  | cons x xs ih => exact (insertD_perm x (sortD xs)).trans (ih.cons x)

lemma insertD_pairwise (x : String × ℚ) (m : List (String × ℚ))
    (h : m.Pairwise (fun a b => b.2 ≤ a.2)) :
    (insertD x m).Pairwise (fun a b => b.2 ≤ a.2) := by
  induction m with
  | nil => simp [insertD]
  | cons y ys ih =>
    rcases List.pairwise_cons.1 h with ⟨hy, hys⟩
    by_cases hxy : x.2 ≥ y.2
    · simp only [insertD, if_pos hxy]
      refine List.pairwise_cons.2 ⟨?_, h⟩
      intro z hz
      rcases List.mem_cons.1 hz with rfl | hz'
      · exact hxy
      · exact le_trans (hy z hz') hxy
    · simp only [insertD, if_neg hxy]
      refine List.pairwise_cons.2 ⟨?_, ih hys⟩
      intro z hz
      rcases List.mem_cons.1 ((insertD_perm x ys).mem_iff.1 hz) with rfl | hz'
      · exact le_of_not_le hxy
      · exact hy z hz'

lemma sortD_pairwise (l : List (String × ℚ)) :
    (sortD l).Pairwise (fun a b => b.2 ≤ a.2) := by
  induction l with
  | nil => simp [sortD]
  | cons x xs ih => exact insertD_pairwise x (sortD xs) ih

lemma insertD_filter_pos (v : ℚ) (x : String × ℚ) (m : List (String × ℚ))
    (hx : scoreEq v x = true) :
    (insertD x m).filter (scoreEq v) = x :: m.filter (scoreEq v) := by
  induction m with
  | nil => simp [insertD, hx]
  | cons y ys ih =>
    by_cases hxy : x.2 ≥ y.2
    · simp [insertD, hxy, List.filter_cons, hx]
    · have hvx : x.2 = v := by simpa [scoreEq] using hx
      have hy : scoreEq v y = false := by
        have : y.2 ≠ v := fun hyv => hxy (by rw [hvx, ← hyv])
        simp [scoreEq, this]
      simp [insertD, hxy, List.filter_cons, hy, ih]

lemma insertD_filter_neg (v : ℚ) (x : String × ℚ) (m : List (String × ℚ))
    (hx : scoreEq v x = false) :
    (insertD x m).filter (scoreEq v) = m.filter (scoreEq v) := by
  induction m with
  | nil => simp [insertD, hx]
  | cons y ys ih =>
    by_cases hxy : x.2 ≥ y.2
    · simp [insertD, hxy, List.filter_cons, hx]
    · simp [insertD, hxy, List.filter_cons, ih]

lemma sortD_filter (v : ℚ) (l : List (String × ℚ)) :
    (sortD l).filter (scoreEq v) = l.filter (scoreEq v) := by
  induction l with
  | nil => simp [sortD]
  | cons x xs ih =>
    show (insertD x (sortD xs)).filter (scoreEq v) = _
    cases hx : scoreEq v x with
    | true => rw [insertD_filter_pos v x _ hx, ih, List.filter_cons_of_pos hx]
    | false => rw [insertD_filter_neg v x _ hx, ih, List.filter_cons_of_neg (by simp [hx])]

/-! ### Helper lemmas about the dict build -/

lemma dictInsert_of_not_mem (d : List (String × ℚ)) (k : String) (v : ℚ)
    (h : k ∉ d.map Prod.fst) : dictInsert d k v = d ++ [(k, v)] := by
  rw [dictInsert, if_neg]
  intro hc
  rcases List.any_eq_true.1 hc with ⟨p, hp, hpk⟩
  exact h (List.mem_map.2 ⟨p, hp, of_decide_eq_true hpk⟩)

lemma dictOfPairs_aux (l : List (String × ℚ)) :
    ∀ acc : List (String × ℚ), ((acc ++ l).map Prod.fst).Nodup →
      l.foldl (fun d p => dictInsert d p.1 p.2) acc = acc ++ l := by
  induction l with
  | nil => intro acc _; simp
  | cons p rest ih =>
    intro acc h
    have hk : p.1 ∉ acc.map Prod.fst := by
      rw [List.map_append, List.nodup_append] at h
      intro hmem
      exact h.2.2 hmem (by simp)
    rw [List.foldl_cons, dictInsert_of_not_mem acc p.1 p.2 hk]
    have heq : (acc ++ [(p.1, p.2)]) ++ rest = acc ++ p :: rest := by
      simp
    have := ih (acc ++ [(p.1, p.2)]) (by rw [heq]; exact h)
    rw [this, heq]

lemma dictOfPairs_eq_self (l : List (String × ℚ))
    (h : (l.map Prod.fst).Nodup) : dictOfPairs l = l := by
  have := dictOfPairs_aux l [] (by simpa using h)
  simpa [dictOfPairs] using this

lemma extract_eq_take (l : List (String × ℚ)) (n : Nat)
    (h : (l.map Prod.fst).Nodup) :
    extract_top_n_emotions l n = (sortD l).take n := by
  apply dictOfPairs_eq_self
  have hperm : ((sortD l).map Prod.fst).Perm (l.map Prod.fst) := (sortD_perm l).map _
  have hsn : ((sortD l).map Prod.fst).Nodup := hperm.nodup_iff.2 h
  exact hsn.sublist ((List.take_sublist n (sortD l)).map _)

/-- Step behaviour of the reducer on the message list: a user/assistant
message event appends exactly one message at the end; every other event
leaves the message list untouched (also when the body raises: the catch
clause only touches `error_message` and `logs`). -/
lemma onMessage_messages (ev : SubscribeEvent) (now : Nat) (s : HandlerState) :
    (isChatMessageEvent ev = true ∧
      ∃ m, (onMessage ev now s).messages = s.messages ++ [m]) ∨
    (isChatMessageEvent ev = false ∧ (onMessage ev now s).messages = s.messages) := by
  cases ev with
  | user_message r c p =>
    left
    refine ⟨rfl, ?_⟩
    cases p <;> exact ⟨_, rfl⟩
  | assistant_message r c p =>
    left
    refine ⟨rfl, ?_⟩
    cases p <;> exact ⟨_, rfl⟩
  | audio_output d =>
    right
    refine ⟨rfl, ?_⟩
    cases hb : b64decode d with
    | ok bytes => simp [onMessage, onMessageBody, hb]
    | error e => simp [onMessage, onMessageBody, hb, logMessage]
  | chat_metadata cid gid => exact Or.inr ⟨rfl, rfl⟩
  | error code msg => exact Or.inr ⟨rfl, rfl⟩
  | other t => exact Or.inr ⟨rfl, rfl⟩

/-! ### The claims -/

/-- C1: for every prosody score mapping (distinct keys) with at least 5
entries, the distribution returned by `_extract_top_n_emotions(·, 5)` has
exactly 5 entries, and every retained entry's score is greater than or
equal to every discarded entry's score. -/
theorem extract_top5_length_dominance (l : List (String × ℚ))
    (hkeys : (l.map Prod.fst).Nodup) (hlen : 5 ≤ l.length) :
    (extract_top_n_emotions l 5).length = 5 ∧
      ∀ p ∈ extract_top_n_emotions l 5, ∀ q ∈ l,
        q ∉ extract_top_n_emotions l 5 → q.2 ≤ p.2 := by
  rw [extract_eq_take l 5 hkeys]
  constructor
  · rw [List.length_take, (sortD_perm l).length_eq]
    exact Nat.min_eq_left hlen
  · intro p hp q hq hq'
    have hqs : q ∈ sortD l := ((sortD_perm l).mem_iff).2 hq
    have hsplit : sortD l = (sortD l).take 5 ++ (sortD l).drop 5 :=
      (List.take_append_drop 5 (sortD l)).symm
    have hqd : q ∈ (sortD l).drop 5 := by
      rcases List.mem_append.1 (hsplit ▸ hqs) with h | h
      · exact absurd h hq'
      · exact h
    have hpw := sortD_pairwise l
    rw [hsplit] at hpw
    exact (List.pairwise_append.1 hpw).2.2 p hp q hqd

/-- Witness for C1 at a concrete 6-entry mapping. -/
theorem extract_top5_length_dominance_witness :
    (extract_top_n_emotions
      [("a", (6:ℚ)), ("b", 5), ("c", 4), ("d", 3), ("e", 2), ("f", 1)] 5).length = 5 :=
  (extract_top5_length_dominance
    [("a", (6:ℚ)), ("b", 5), ("c", 4), ("d", 3), ("e", 2), ("f", 1)]
    (by decide) (by decide)).1

/-- C2: the top-5 extraction selects by score value in descending order
(the retained list is sorted descending), and ties are broken by arrival
order in the source collection: for every score value `v`, the retained
entries of score `v` form an initial segment of the source's entries of
score `v` in arrival order — so among equal scores the earlier entries
win. -/
theorem extract_top5_descending_stable (l : List (String × ℚ))
    (hkeys : (l.map Prod.fst).Nodup) :
    (extract_top_n_emotions l 5).Pairwise (fun a b => b.2 ≤ a.2) ∧
      ∀ v : ℚ, ∃ t, l.filter (scoreEq v) =
        (extract_top_n_emotions l 5).filter (scoreEq v) ++ t := by
  rw [extract_eq_take l 5 hkeys]
  constructor
  · exact (sortD_pairwise l).sublist (List.take_sublist 5 (sortD l))
  · intro v
    refine ⟨((sortD l).drop 5).filter (scoreEq v), ?_⟩
    rw [← sortD_filter v l]
    conv_lhs => rw [← List.take_append_drop 5 (sortD l)]
    rw [List.filter_append]

/-- Witness for C2 at a concrete mapping with a tied score. -/
theorem extract_top5_descending_stable_witness :
    (extract_top_n_emotions [("a", (1:ℚ)), ("b", 2), ("c", 1)] 5).Pairwise
      (fun a b => b.2 ≤ a.2) :=
  (extract_top5_descending_stable [("a", (1:ℚ)), ("b", 2), ("c", 1)] (by decide)).1

/-- C3: for the worked example `{joy: 0.9, calm: 0.2, fear: 0.1,
anger: 0.05, sad: 0.3, awe: 0.4}` attached as prosody to a user message
event, the stored distribution — on the appended message and as the
holder's current `emotion_scores` — equals the mapping
`{joy: 0.9, sad: 0.3, awe: 0.4, calm: 0.2, fear: 0.1}` (as a key-value
mapping: the stored pair list is a permutation of the pairs the spec
lists, with distinct keys). -/
theorem c3_worked_example :
    (onMessage (.user_message "user" "Hello" (some c3Input)) 0 initialState).messages.map
        Message.emotions = [some (extract_top_n_emotions c3Input 5)] ∧
      (onMessage (.user_message "user" "Hello" (some c3Input)) 0
          initialState).emotion_scores = extract_top_n_emotions c3Input 5 ∧
      (extract_top_n_emotions c3Input 5).Perm c3Expected := by
  refine ⟨rfl, rfl, ?_⟩
  have h1 : sortD c3Input = [("joy", 0.9), ("awe", 0.4), ("sad", 0.3), ("calm", 0.2),
      ("fear", 0.1), ("anger", 0.05)] := by
    norm_num [c3Input, sortD, insertD]
  have h2 : extract_top_n_emotions c3Input 5 =
      [("joy", 0.9), ("awe", 0.4), ("sad", 0.3), ("calm", 0.2), ("fear", 0.1)] := by
    rw [extract_eq_take c3Input 5 (by decide), h1]
    rfl
  rw [h2]
  exact List.Perm.cons _ (List.Perm.swap _ _ _)

/-- C4: a metadata event overwrites the holder's chat metadata with the
event's `chat_id`/`chat_group_id` and appends exactly one log entry of
category "metadata"; in particular `{chat_id: "abc", chat_group_id: "g1"}`
yields chat metadata `⟨"abc", "g1"⟩`. -/
theorem metadata_event_overwrites_and_logs (cid gid : String) (now : Nat)
    (s : HandlerState) :
    onMessage (.chat_metadata cid gid) now s =
      { s with chat_metadata := some ⟨cid, gid⟩,
               logs := s.logs ++ [⟨fmtHMS now, "Chat ID: " ++ cid, "metadata"⟩] } ∧
      (onMessage (.chat_metadata "abc" "g1") now s).chat_metadata =
        some ⟨"abc", "g1"⟩ :=
  ⟨rfl, rfl⟩

/-- C5: an error event never raises past the reducer boundary (its body
returns normally), the holder's error field afterwards equals the event's
formatted message `"Hume API Error ({code}): {message}"`, and exactly one
log entry of category "error" is appended. -/
theorem error_event_records_and_logs (code msg : String) (now : Nat)
    (s : HandlerState) :
    (∃ s', onMessageBody (.error code msg) now s = Except.ok s') ∧
      onMessage (.error code msg) now s =
        { s with
            error_message := some ("Hume API Error (" ++ code ++ "): " ++ msg),
            logs := s.logs ++
              [⟨fmtHMS now, "Hume API Error (" ++ code ++ "): " ++ msg, "error"⟩] } :=
  ⟨⟨_, rfl⟩, rfl⟩

/-- C6: for every inbound event, an exception raised by the `try` body of
the reducer is caught: the reducer still returns a state (it never
re-raises), that state records the stringified exception as the last
error, and one error log entry is appended — the session continues. -/
theorem handler_exception_caught (ev : SubscribeEvent) (now : Nat)
    (s : HandlerState) (e : String)
    (h : onMessageBody ev now s = Except.error e) :
    onMessage ev now s =
      { s with
          error_message := some ("Handler error: " ++ e),
          logs := s.logs ++ [⟨fmtHMS now, "Handler error: " ++ e, "error"⟩] } := by
  simp [onMessage, h, logMessage]

/-- Witness for C6: an audio event whose payload is not valid base64. -/
theorem handler_exception_caught_witness :
    onMessage (.audio_output "A") 0 initialState =
      { initialState with
          error_message := some ("Handler error: " ++ "Incorrect padding"),
          logs := initialState.logs ++
            [⟨fmtHMS 0, "Handler error: " ++ "Incorrect padding", "error"⟩] } :=
  handler_exception_caught (.audio_output "A") 0 initialState "Incorrect padding" rfl

/-- C7: the message list is append-only and order-preserving: each
user/assistant message event appends exactly one message at the end,
every other event leaves the list unchanged, and over any event sequence
the list grows by exactly one message per user/assistant message event,
in arrival order, regardless of role. -/
theorem messages_append_only_in_order :
    (∀ (ev : SubscribeEvent) (now : Nat) (s : HandlerState),
      (isChatMessageEvent ev = true →
        ∃ m, (onMessage ev now s).messages = s.messages ++ [m]) ∧
      (isChatMessageEvent ev = false →
        (onMessage ev now s).messages = s.messages)) ∧
    (∀ (evs : List (SubscribeEvent × Nat)) (s : HandlerState),
      ∃ t, (processEvents evs s).messages = s.messages ++ t ∧
        t.length = evs.countP (fun e => isChatMessageEvent e.1)) := by
  constructor
  · intro ev now s
    rcases onMessage_messages ev now s with ⟨h1, m, h2⟩ | ⟨h1, h2⟩
    · exact ⟨fun _ => ⟨m, h2⟩, fun hf => absurd h1 (by simp [hf])⟩
    · exact ⟨fun ht => absurd h1 (by simp [ht]), fun _ => h2⟩
  · intro evs
    induction evs with
    | nil => intro s; exact ⟨[], by simp [processEvents]⟩
    | cons e rest ih =>
      intro s
      have hpe : processEvents (e :: rest) s =
          processEvents rest (onMessage e.1 e.2 s) := rfl
      rcases onMessage_messages e.1 e.2 s with ⟨h1, m, h2⟩ | ⟨h1, h2⟩
      · rcases ih (onMessage e.1 e.2 s) with ⟨t, ht, hlen⟩
        refine ⟨[m] ++ t, ?_, ?_⟩
        · rw [hpe, ht, h2, List.append_assoc]
        · simp [List.countP_cons, h1, hlen, Nat.add_comm]
      · rcases ih (onMessage e.1 e.2 s) with ⟨t, ht, hlen⟩
        refine ⟨t, ?_, ?_⟩
        · rw [hpe, ht, h2]
        · simp [List.countP_cons, h1, hlen]

/-- Witness for C7: a non-message event leaves the message list unchanged. -/
theorem messages_append_only_in_order_witness :
    (onMessage (.other "tool_call") 0 initialState).messages =
      initialState.messages :=
  (messages_append_only_in_order.1 (.other "tool_call") 0 initialState).2 rfl

/-- C8: a user or assistant message event makes the reducer append a
message carrying the event's role, content and the current (UTC) clock
reading, and when a prosody score set is attached its top-5 reduction is
stored both on that message and as the holder's current emotion
distribution. -/
theorem message_event_with_prosody (role content : String)
    (scores : List (String × ℚ)) (now : Nat) (s : HandlerState) :
    onMessage (.user_message role content (some scores)) now s =
      { s with
          messages := s.messages ++
            [⟨role, content, now, some (extract_top_n_emotions scores 5)⟩],
          emotion_scores := extract_top_n_emotions scores 5 } ∧
      onMessage (.assistant_message role content (some scores)) now s =
        { s with
            messages := s.messages ++
              [⟨role, content, now, some (extract_top_n_emotions scores 5)⟩],
            emotion_scores := extract_top_n_emotions scores 5 } :=
  ⟨rfl, rfl⟩

/-- C9: a user or assistant message event with no prosody attached
appends a message whose emotions field is `none` and leaves the holder's
current emotion distribution exactly as it was (the state equation leaves
`emotion_scores` untouched, stated again explicitly in the last two
conjuncts). -/
theorem message_event_without_prosody (role content : String) (now : Nat)
    (s : HandlerState) :
    onMessage (.user_message role content none) now s =
      { s with messages := s.messages ++ [⟨role, content, now, none⟩] } ∧
      onMessage (.assistant_message role content none) now s =
        { s with messages := s.messages ++ [⟨role, content, now, none⟩] } ∧
      (onMessage (.user_message role content none) now s).emotion_scores =
        s.emotion_scores ∧
      (onMessage (.assistant_message role content none) now s).emotion_scores =
        s.emotion_scores :=
  ⟨rfl, rfl, rfl, rfl⟩

/-- C10: for every prosody score mapping (distinct keys) with fewer than
5 entries, the top-5 extraction returns all entries of the input with
their scores unchanged (a permutation of the input, rather than failing
or padding to 5). -/
theorem extract_small_input_all_entries (l : List (String × ℚ))
    (hkeys : (l.map Prod.fst).Nodup) (hlen : l.length < 5) :
    (extract_top_n_emotions l 5).Perm l := by
  rw [extract_eq_take l 5 hkeys, List.take_of_length_le]
  · exact sortD_perm l
  · rw [(sortD_perm l).length_eq]
    omega

/-- Witness for C10 at a concrete 2-entry mapping. -/
theorem extract_small_input_all_entries_witness :
    (extract_top_n_emotions [("a", (1:ℚ)), ("b", 2)] 5).Perm
      [("a", (1:ℚ)), ("b", 2)] :=
  extract_small_input_all_entries [("a", (1:ℚ)), ("b", 2)] (by decide) (by decide)
